import Mathlib

/-!
# Verification of the blog_app voting / listing / comment service

Shallow embedding of the Django views, serializers and models of the
`blog_app` repository (files `blog/views.py`, `comment/views.py`,
`blog/serializers.py`, `comment/serializers.py`, `users/serializers.py`,
`blog/models.py`).  Database tables are embedded as Lean lists of records,
request handlers as pure state-transition functions, Python integers as
`Int`, and strings as `String`.
-/

/-- A vote row, as stored by the `BlogVote` / `CommentVote` models: the
voting user (by id) and the vote type string (`"upvote"` / `"downvote"`,
enforced by the request handlers).  Both models additionally carry the
target's foreign key; the embedding keeps the per-target slice of the
table, so the target column is implicit. -/
structure VoteRow where
  user : Nat
  vote_type : String
deriving DecidableEq, Repr

/-- The state of one blog relevant to voting: its slice of the `BlogVote`
table together with the denormalized `upvote_count` / `downvote_count`
fields of the `Blog` model (Python ints, hence `Int`). -/
structure BlogState where
  votes : List VoteRow
  upvote_count : Int
  downvote_count : Int
deriving DecidableEq, Repr

/-- The state of one comment relevant to voting: its slice of the
`CommentVote` table together with the denormalized `upvotes` / `downvotes`
fields of the `Comment` model. -/
structure CommentState where
  votes : List VoteRow
  upvotes : Int
  downvotes : Int
deriving DecidableEq, Repr

/-- `BlogVote.objects.filter(user=u, blog=b).first()` /
`CommentVote.objects.filter(user=u, comment=c).first()` on the target's
slice of the vote table. -/
def findVote (votes : List VoteRow) (u : Nat) : Option VoteRow :=
  votes.find? (fun v => v.user == u)

/-- `existing_vote.vote_type = t; existing_vote.save()`: overwrite the
vote type of the row that `.first()` returned (the first row of the given
user). -/
def updateFirst (votes : List VoteRow) (u : Nat) (t : String) : List VoteRow :=
  match votes with
  | [] => []
  | v :: vs =>
    if v.user == u then { v with vote_type := t } :: vs
    else v :: updateFirst vs u t

/-- Number of vote rows of the given type:
`objects.filter(target, vote_type=t).count()`. -/
def countType (votes : List VoteRow) (t : String) : Nat :=
  votes.countP (fun v => v.vote_type == t)

/-- Response of `BlogVoteView.post`: 400 on an invalid `vote_type`,
otherwise 200 with the stored counter fields. -/
inductive BlogVoteResp where
  | badRequest
  | counts (upvotes downvotes : Int)
deriving DecidableEq, Repr

/-- `BlogVoteView.post` (blog/views.py lines 178-222), acting on the
target blog's state.  Mirrors the source: reject an invalid vote type;
otherwise look up the user's existing vote; on a flip decrement the old
counter, increment the new one and rewrite the row; on a same-type revote
do nothing; with no prior vote create a row and increment the matching
counter; finally report the stored counters. -/
def blogVotePost (s : BlogState) (user : Nat) (vote_type : String) :
    BlogState × BlogVoteResp :=
  if ¬ (vote_type = "upvote" ∨ vote_type = "downvote") then
    (s, .badRequest)
  else
    match findVote s.votes user with
    | some existing_vote =>
      if existing_vote.vote_type ≠ vote_type then
        let s1 :=
          if existing_vote.vote_type = "upvote" then
            { s with upvote_count := s.upvote_count - 1 }
          else
            { s with downvote_count := s.downvote_count - 1 }
        let s2 :=
          if vote_type = "upvote" then
            { s1 with upvote_count := s1.upvote_count + 1 }
          else
            { s1 with downvote_count := s1.downvote_count + 1 }
        let s3 := { s2 with votes := updateFirst s2.votes user vote_type }
        (s3, .counts s3.upvote_count s3.downvote_count)
      else
        (s, .counts s.upvote_count s.downvote_count)
    | none =>
      let s1 := { s with votes := s.votes ++ [(⟨user, vote_type⟩ : VoteRow)] }
      let s2 :=
        if vote_type = "upvote" then
          { s1 with upvote_count := s1.upvote_count + 1 }
        else
          { s1 with downvote_count := s1.downvote_count + 1 }
      (s2, .counts s2.upvote_count s2.downvote_count)

/-- Response of `CommentVoteView.post`: 400 from the serializer for an
invalid vote type, 400 "You have already cast this vote." on a same-type
revote, otherwise a 200 message. -/
inductive CommentVoteResp where
  | badRequest
  | alreadyVoted
  | updated (vote_type : String)
  | created (vote_type : String)
deriving DecidableEq, Repr

/-- `CommentVoteView.post` (comment/views.py lines 58-122), acting on the
target comment's state.  `CommentVoteSerializer` accepts only
`"upvote"` / `"downvote"`; a same-type revote is a 400 conflict; a flip
decrements the old counter floored at zero (`max(x - 1, 0)`), rewrites
the row and increments the new counter; no prior vote creates a row and
increments. -/
def commentVotePost (s : CommentState) (user : Nat) (vote_type : String) :
    CommentState × CommentVoteResp :=
  if ¬ (vote_type = "upvote" ∨ vote_type = "downvote") then
    (s, .badRequest)
  else
    match findVote s.votes user with
    | some existing_vote =>
      if existing_vote.vote_type = vote_type then
        (s, .alreadyVoted)
      else
        let s1 :=
          if existing_vote.vote_type = "upvote" then
            { s with upvotes := max (s.upvotes - 1) 0 }
          else if existing_vote.vote_type = "downvote" then
            { s with downvotes := max (s.downvotes - 1) 0 }
          else s
        let s2 := { s1 with votes := updateFirst s1.votes user vote_type }
        let s3 :=
          if vote_type = "upvote" then
            { s2 with upvotes := s2.upvotes + 1 }
          else if vote_type = "downvote" then
            { s2 with downvotes := s2.downvotes + 1 }
          else s2
        (s3, .updated vote_type)
    | none =>
      let s1 := { s with votes := s.votes ++ [(⟨user, vote_type⟩ : VoteRow)] }
      let s2 :=
        if vote_type = "upvote" then
          { s1 with upvotes := s1.upvotes + 1 }
        else if vote_type = "downvote" then
          { s1 with downvotes := s1.downvotes + 1 }
        else s1
      (s2, .created vote_type)

/-- A fresh blog: no vote rows, both counters at their model default 0. -/
def initBlogState : BlogState := ⟨[], 0, 0⟩

/-- A fresh comment: no vote rows, both counters at their model default 0. -/
def initCommentState : CommentState := ⟨[], 0, 0⟩

/-- Apply a sequence of blog-vote requests `(user, vote_type)` through
`BlogVoteView.post`. -/
def applyBlogVotes (ops : List (Nat × String)) (s : BlogState) : BlogState :=
  ops.foldl (fun s op => (blogVotePost s op.1 op.2).1) s

/-- Apply a sequence of comment-vote requests `(user, vote_type)` through
`CommentVoteView.post`. -/
def applyCommentVotes (ops : List (Nat × String)) (s : CommentState) :
    CommentState :=
  ops.foldl (fun s op => (commentVotePost s op.1 op.2).1) s

/-- The vote-table invariant: every stored row has a legal vote type and
each denormalized counter equals the number of rows of its type. -/
def BlogInv (s : BlogState) : Prop :=
  (∀ v ∈ s.votes, v.vote_type = "upvote" ∨ v.vote_type = "downvote") ∧
  s.upvote_count = (countType s.votes "upvote" : Nat) ∧
  s.downvote_count = (countType s.votes "downvote" : Nat)

/-- The same invariant for a comment's vote table and counters. -/
def CommentInv (s : CommentState) : Prop :=
  (∀ v ∈ s.votes, v.vote_type = "upvote" ∨ v.vote_type = "downvote") ∧
  s.upvotes = (countType s.votes "upvote" : Nat) ∧
  s.downvotes = (countType s.votes "downvote" : Nat)

/-- Generic insertion of an element into a list, keeping elements that
compare `le`-before it in front (embeds the ordering the database
`ORDER BY` produces). -/
def insertLe (le : α → α → Bool) (a : α) : List α → List α
  | [] => [a]
  | x :: xs => if le a x then a :: x :: xs else x :: insertLe le a xs

/-- Insertion sort with a Bool comparison; embeds `order_by(...)`. -/
def sortLe (le : α → α → Bool) : List α → List α
  | [] => []
  | x :: xs => insertLe le x (sortLe le xs)

/-- One row of the `Blog` table, with the columns the listing, voting and
deletion endpoints consult.  `author` is the author's user id,
`author_username` the related user's username (the `author__username`
join column), `tags` the usernames of the tagged users (`tags` is a
many-to-many to `User`). -/
structure BlogRec where
  id : Nat
  title : String
  author : Nat
  author_username : String
  category : String
  tags : List String
  is_published : Bool
deriving DecidableEq, Repr

/-- `order_by("id")` on a list of blog rows. -/
def sortById (l : List BlogRec) : List BlogRec :=
  sortLe (fun x y => decide (x.id ≤ y.id)) l

/-- The query parameters of `GET /blogs/all/` that `AllBlogsView`
consults.  `tags` is the repeatable parameter as an ordered list
(`query_params.getlist`); the others are absent (`none`) or present with
a string value.  `page` is the 1-based page number. -/
structure ListingParams where
  author : Option String
  category : Option String
  tags : List String
  search_title : Option String
  page : Nat
  page_size : Option Nat
deriving DecidableEq, Repr

/-- The characters of a string lowered case-wise (what `str.lower()` /
`LOWER(...)` does to each character). -/
def lowerChars (s : String) : List Char :=
  s.data.map Char.toLower

/-- `field__icontains=needle`: case-insensitive substring test. -/
def icontains (haystack needle : String) : Bool :=
  decide (lowerChars needle <:+: lowerChars haystack)

/-- `queryset.filter(author__username=author)` guarded by `if author:`. -/
def applyAuthor (qs : List BlogRec) (author : Option String) : List BlogRec :=
  match author with
  | none => qs
  | some a => if a.isEmpty then qs else qs.filter (fun b => b.author_username == a)

/-- `queryset.filter(category__icontains=category)` guarded by
`if category:`. -/
def applyCategory (qs : List BlogRec) (category : Option String) : List BlogRec :=
  match category with
  | none => qs
  | some c => if c.isEmpty then qs else qs.filter (fun b => icontains b.category c)

/-- `queryset.filter(tags__username__in=tags).distinct()` guarded by
`if tags:`.  On the list embedding each blog row appears once, so the
`distinct()` that collapses the join duplicates is the identity. -/
def applyTags (qs : List BlogRec) (tags : List String) : List BlogRec :=
  match tags with
  | [] => qs
  | _ => qs.filter (fun b => b.tags.any (fun t => tags.contains t))

/-- `queryset.filter(title__icontains=search_title)` guarded by
`if search_title:`. -/
def applySearchTitle (qs : List BlogRec) (search_title : Option String) :
    List BlogRec :=
  match search_title with
  | none => qs
  | some q => if q.isEmpty then qs else qs.filter (fun b => icontains b.title q)

/-- `AllBlogsView.get_queryset` (blog/views.py lines 146-167):
published blogs ordered by id, then the four optional filters. -/
def get_queryset (table : List BlogRec) (p : ListingParams) : List BlogRec :=
  applySearchTitle
    (applyTags
      (applyCategory
        (applyAuthor (sortById (table.filter (fun b => b.is_published))) p.author)
        p.category)
      p.tags)
    p.search_title

/-- `AllBlogsPagination` (blog/views.py lines 100-103) through DRF's
`PageNumberPagination.get_page_size`: default `page_size = 10`; a
supplied positive `page_size` is capped at `max_page_size = 50`; a
non-positive value falls back to the default. -/
def get_page_size (p : Option Nat) : Nat :=
  match p with
  | none => 10
  | some n => if n = 0 then 10 else min n 50

/-- One page of a paginated queryset: DRF serves the slice of the ordered
queryset at offset `(page - 1) * size`. -/
def paginate (l : List BlogRec) (page size : Nat) : List BlogRec :=
  (l.drop ((page - 1) * size)).take size

/-- The page of blog rows that `AllBlogsView.get` serializes. -/
def allBlogsPage (table : List BlogRec) (p : ListingParams) : List BlogRec :=
  paginate (get_queryset table p) p.page (get_page_size p.page_size)

/-- `BlogSerializer.get_upvotes` (blog/serializers.py lines 158-168):
`BlogVote.objects.filter(blog=obj, vote_type="upvote").count()` — a count
of vote rows, not a read of the stored counter field. -/
def get_upvotes (s : BlogState) : Nat :=
  (s.votes.filter (fun v => v.vote_type == "upvote")).length

/-- `BlogSerializer.get_downvotes` (blog/serializers.py lines 170-180). -/
def get_downvotes (s : BlogState) : Nat :=
  (s.votes.filter (fun v => v.vote_type == "downvote")).length

/-- `BlogDeleteView.delete` (blog/views.py lines 233-249): look the blog
up by id, delete it only when the requester is its author, otherwise 403
and no change.  A missing blog raises `Blog.DoesNotExist`, which no
handler catches (500, no change).  Returns the new table and the HTTP
status. -/
def blogDeleteViewDelete (table : List BlogRec) (requester blog_id : Nat) :
    List BlogRec × Nat :=
  match table.find? (fun b => b.id == blog_id) with
  | none => (table, 500)
  | some blog =>
    if blog.author == requester then
      (table.filter (fun b => !(b.id == blog_id)), 204)
    else
      (table, 403)

/-- The DELETE handler of `BlogDetailView` (blog/views.py lines 30-38):
the generic `RetrieveUpdateDestroyAPIView.destroy` guarded only by
`IsAuthenticatedOrReadOnly`.  `get_object` looks the blog up (404 when
absent) and `perform_destroy` deletes it; there is no author or superuser
check anywhere on this route. -/
def blogDetailViewDelete (table : List BlogRec) (requester blog_id : Nat) :
    List BlogRec × Nat :=
  match table.find? (fun b => b.id == blog_id) with
  | none => (table, 404)
  | some _ => (table.filter (fun b => !(b.id == blog_id)), 204)

/-- One row of the user table as the registration serializer consults it. -/
structure UserRec where
  username : String
  email : String
deriving DecidableEq, Repr

/-- `User.objects.filter(username=value).exists()`. -/
def usernameExists (users : List UserRec) (uname : String) : Bool :=
  users.any (fun u => u.username == uname)

/-- `User.objects.filter(email=value).exists()`. -/
def emailExists (users : List UserRec) (email : String) : Bool :=
  users.any (fun u => u.email == email)

/-- Response of `UserRegistrationView.post`: 201, or 400 carrying the
field-level errors produced by `validate_username` / `validate_email`. -/
inductive RegisterResp where
  | created
  | validationErrors (usernameTaken emailTaken : Bool)
deriving DecidableEq, Repr

/-- `UserRegistrationView.post` with `UserRegistrationSerializer`
(users/serializers.py lines 95-126, users/views.py lines 31-39): both
field validators run during `is_valid`; any failure returns the errors
with 400 and nothing is saved; otherwise `create_user` adds the row.
The password is write-only and not part of the observable state. -/
def registerPost (users : List UserRec) (username email : String) :
    List UserRec × RegisterResp :=
  let uTaken := usernameExists users username
  let eTaken := emailExists users email
  if uTaken || eTaken then
    (users, .validationErrors uTaken eTaken)
  else
    (users ++ [(⟨username, email⟩ : UserRec)], .created)

/-- One row of the `Comment` table with the columns the serializers
consult: primary key, `blog` foreign key, optional `parent` foreign key
and the `auto_now_add` creation timestamp (an abstract instant). -/
structure CommentRec where
  id : Nat
  blog : Nat
  parent : Option Nat
  created_at : Nat
deriving DecidableEq, Repr

/-- `order_by("created_at")` on comment rows. -/
def sortByCreated (l : List CommentRec) : List CommentRec :=
  sortLe (fun x y => decide (x.created_at ≤ y.created_at)) l

/-- A serialized comment as `CommentSerializer` renders it: the row plus
the recursively serialized `replies` list. -/
inductive SComment where
  | node (comment : CommentRec) (replies : List SComment)

/-- The replies list of a serialized comment. -/
def SComment.replies : SComment → List SComment
  | .node _ rs => rs

/-- `Comment.objects.filter(parent=obj).order_by("created_at")`: the
children of a comment, ordered by creation time. -/
def repliesQuery (store : List CommentRec) (cid : Nat) : List CommentRec :=
  sortByCreated (store.filter (fun r => r.parent == some cid))

/-- `CommentSerializer` with a recursion budget.  The Python serializer
recurses through `get_replies` without a bound; on any store whose parent
ids precede the child ids (which comment creation guarantees) the
recursion depth is at most the store size, and `serializeAux` is
fuel-insensitive above that depth (proved below), so the budgeted
function agrees with the unbounded one. -/
def serializeAux : Nat → List CommentRec → CommentRec → SComment
  | 0, _, c => .node c []
  | fuel + 1, store, c =>
    .node c ((repliesQuery store c.id).map (serializeAux fuel store))

/-- Number of store rows with an id above `i`; the termination measure of
the serializer recursion. -/
def countGT (store : List CommentRec) (i : Nat) : Nat :=
  store.countP (fun c => decide (i < c.id))

/-- `CommentSerializer(obj).data`: the serializer with enough fuel for
any well-formed store. -/
def serializeComment (store : List CommentRec) (c : CommentRec) : SComment :=
  serializeAux (store.length + 1) store c

/-- `BlogSerializer.get_comments` (blog/serializers.py lines 142-156):
top-level comments of the blog (`parent=None`) ordered by creation time,
each rendered by `CommentSerializer`. -/
def get_comments (store : List CommentRec) (blogId : Nat) : List SComment :=
  (sortByCreated
      (store.filter (fun c => c.blog == blogId && c.parent == none))).map
    (serializeComment store)

/-- The comment table together with the next primary key the database
will assign. -/
structure CommentsState where
  comments : List CommentRec
  nextId : Nat
deriving DecidableEq, Repr

/-- Response of the comment-creation endpoint `CommentCreateView.post`. -/
inductive CreateCommentResp where
  | blogNotFound
  | parentNotFound
  | parentBlogMismatch
  | contentInvalid
  | created (c : CommentRec)
deriving DecidableEq, Repr

/-- `CommentCreateView.post` (comment/views.py lines 20-55 and the
identical copy in blog/views.py lines 260-295): 404 when the blog does
not exist; with a non-null parent, 400 when the parent comment is
missing or belongs to a different blog; then the serializer validates
(modelled: non-empty `content`) and saves the comment with the next
primary key and the request's creation instant. -/
def commentCreatePost (blogIds : List Nat) (st : CommentsState)
    (blog_id : Nat) (parent : Option Nat) (content : String)
    (createdAt : Nat) : CommentsState × CreateCommentResp :=
  if ¬ blog_id ∈ blogIds then
    (st, .blogNotFound)
  else
    let doCreate : CommentsState × CreateCommentResp :=
      if content.isEmpty then (st, .contentInvalid)
      else
        let c : CommentRec := ⟨st.nextId, blog_id, parent, createdAt⟩
        ({ comments := st.comments ++ [c], nextId := st.nextId + 1 },
          .created c)
    match parent with
    | some p =>
      match st.comments.find? (fun c => c.id == p) with
      | none => (st, .parentNotFound)
      | some parent_comment =>
        if parent_comment.blog ≠ blog_id then (st, .parentBlogMismatch)
        else doCreate
    | none => doCreate

/-- One comment-creation request. -/
structure CreateOp where
  blog : Nat
  parent : Option Nat
  content : String
  createdAt : Nat
deriving DecidableEq, Repr

/-- Apply a sequence of creation requests through `CommentCreateView.post`. -/
def applyCreates (blogIds : List Nat) (ops : List CreateOp)
    (st : CommentsState) : CommentsState :=
  ops.foldl
    (fun st op =>
      (commentCreatePost blogIds st op.blog op.parent op.content
          op.createdAt).1)
    st

/-- The comment-store invariant maintained by the creation endpoint: ids
are below the next key, and every parent pointer names an earlier comment
of the same blog. -/
def CommentsInv (st : CommentsState) : Prop :=
  (∀ c ∈ st.comments, c.id < st.nextId) ∧
  (∀ c ∈ st.comments, ∀ p, c.parent = some p →
    p < c.id ∧ ∃ q ∈ st.comments, q.id = p ∧ q.blog = c.blog)

/-- A value of Django's `make_hashable` as the listing cache key uses it:
plain query-parameter values stay strings, the repeatable `tags`
parameter becomes a tuple of strings in request order. -/
inductive HVal where
  | str (v : String)
  | tup (l : List String)
deriving DecidableEq, Repr

/-- Code-point lexicographic comparison of character lists: the order
Python uses when `make_hashable` sorts the dict items by key. -/
def charListLe : List Char → List Char → Bool
  | [], _ => true
  | _ :: _, [] => false
  | a :: as, b :: bs =>
    if a < b then true else if b < a then false else charListLe as bs

/-- Code-point lexicographic comparison of strings. -/
def strLe (a b : String) : Bool :=
  charListLe a.data b.data

/-- The last value of a query-string key, as `QueryDict.dict()` keeps it. -/
def lastValue (qs : List (String × String)) (k : String) : String :=
  (((qs.filter (fun p => p.1 == k)).map (fun p => p.2)).getLastD "")

/-- `query_params.getlist("tags")`: all values of the repeatable key, in
request order. -/
def tagsList (qs : List (String × String)) : List String :=
  (qs.filter (fun p => p.1 == "tags")).map (fun p => p.2)

/-- The data `AllBlogsView.get` (blog/views.py lines 116-129) feeds into
`hash(make_hashable(query_params))`: `query_params.dict()` (last value
per key), with the `"tags"` entry overwritten by the ordered
`getlist("tags")` result; `make_hashable` then sorts the dict items by
key and turns the list into a tuple, preserving its order.  The cache key
is the Python hash of this structure; the embedding keeps the hash input
itself, equal inputs giving equal keys. -/
def cacheKeyData (qs : List (String × String)) : List (String × HVal) :=
  let otherKeys := ((qs.map (fun p => p.1)).filter (fun k => !(k == "tags"))).dedup
  let entries :=
    otherKeys.map (fun k => (k, HVal.str (lastValue qs k)))
      ++ [("tags", HVal.tup (tagsList qs))]
  sortLe (fun x y => strLe x.1 y.1) entries

/-- The local data one execution of `BlogVoteView.post` has read before
it starts writing: the blog row's counter fields (read by
`Blog.objects.get`) and the user's existing vote (read by
`BlogVote.objects.filter(...).first()`). -/
structure VoteCtx where
  existing : Option VoteRow
  upvote_count : Int
  downvote_count : Int
deriving DecidableEq, Repr

/-- The read phase of `BlogVoteView.post` against the shared store. -/
def blogVoteRead (g : BlogState) (user : Nat) : VoteCtx :=
  ⟨findVote g.votes user, g.upvote_count, g.downvote_count⟩

/-- The write phase of `BlogVoteView.post`: the row write
(`BlogVote.objects.create` or `existing_vote.save()`) applied to the
store as it is at write time, followed by `blog.save()`, which overwrites
the counter columns with the values computed from the request's earlier
read.  The view wraps none of this in a transaction. -/
def blogVoteWrite (g : BlogState) (ctx : VoteCtx) (user : Nat)
    (vote_type : String) : BlogState :=
  match ctx.existing with
  | some existing_vote =>
    if existing_vote.vote_type ≠ vote_type then
      let localUp :=
        if existing_vote.vote_type = "upvote" then ctx.upvote_count - 1
        else ctx.upvote_count
      let localDown :=
        if existing_vote.vote_type = "upvote" then ctx.downvote_count
        else ctx.downvote_count - 1
      let localUp' := if vote_type = "upvote" then localUp + 1 else localUp
      let localDown' :=
        if vote_type = "upvote" then localDown else localDown + 1
      { votes := updateFirst g.votes user vote_type,
        upvote_count := localUp', downvote_count := localDown' }
    else g
  | none =>
    { votes := g.votes ++ [(⟨user, vote_type⟩ : VoteRow)],
      upvote_count :=
        if vote_type = "upvote" then ctx.upvote_count + 1
        else ctx.upvote_count,
      downvote_count :=
        if vote_type = "upvote" then ctx.downvote_count
        else ctx.downvote_count + 1 }

/-- The store produced by the lost-update interleaving of two concurrent
upvote requests on a fresh blog: user 1 and user 2 both execute their
read phase before either write phase runs. -/
def racedState : BlogState :=
  let g0 := initBlogState
  let ctx1 := blogVoteRead g0 1
  let ctx2 := blogVoteRead g0 2
  let g1 := blogVoteWrite g0 ctx1 1 "upvote"
  blogVoteWrite g1 ctx2 2 "upvote"


/-! ## Lemmas about the vote-table primitives -/

theorem findVote_eq_none {votes : List VoteRow} {u : Nat}
    (h : findVote votes u = none) : ∀ v ∈ votes, v.user ≠ u := by
  intro v hv
  have := List.find?_eq_none.mp h v hv
  simpa using this

theorem findVote_mem {votes : List VoteRow} {u : Nat} {ev : VoteRow}
    (h : findVote votes u = some ev) : ev ∈ votes ∧ ev.user = u := by
  refine ⟨List.mem_of_find?_eq_some h, ?_⟩
  have := List.find?_some h
  simpa using this

theorem countType_append (votes : List VoteRow) (v : VoteRow) (t : String) :
    countType (votes ++ [v]) t =
      countType votes t + (if v.vote_type = t then 1 else 0) := by
  simp [countType, List.countP_append, List.countP_cons]

theorem countType_updateFirst {votes : List VoteRow} {u : Nat} {ev : VoteRow}
    (t t' : String) (h : findVote votes u = some ev) :
    countType (updateFirst votes u t) t' + (if ev.vote_type = t' then 1 else 0) =
      countType votes t' + (if t = t' then 1 else 0) := by
  induction votes with
  | nil => simp [findVote] at h
  | cons v vs ih =>
    by_cases hv : v.user = u
    · have h2 : findVote (v :: vs) u = some v := by simp [findVote, hv]
      rw [h2] at h
      obtain rfl : v = ev := Option.some.inj h
      simp only [updateFirst, hv, beq_self_eq_true, if_true, countType,
        List.countP_cons, beq_iff_eq]
      split_ifs <;> simp_all
    · have h2 : findVote (v :: vs) u = findVote vs u := by simp [findVote, hv]
      rw [h2] at h
      have hrec := ih h
      have h3 : updateFirst (v :: vs) u t = v :: updateFirst vs u t := by
        simp [updateFirst, hv]
      rw [h3]
      simp only [countType, List.countP_cons, beq_iff_eq] at hrec ⊢
      split_ifs at hrec ⊢ <;> omega

theorem findVote_updateFirst {votes : List VoteRow} {u : Nat} {ev : VoteRow}
    (t : String) (h : findVote votes u = some ev) :
    findVote (updateFirst votes u t) u = some ⟨u, t⟩ := by
  induction votes with
  | nil => simp [findVote] at h
  | cons v vs ih =>
    by_cases hv : v.user = u
    · have h3 : updateFirst (v :: vs) u t = { v with vote_type := t } :: vs := by
        simp [updateFirst, hv]
      rw [h3]
      simp [findVote, hv]
    · have h2 : findVote (v :: vs) u = findVote vs u := by simp [findVote, hv]
      rw [h2] at h
      have h3 : updateFirst (v :: vs) u t = v :: updateFirst vs u t := by
        simp [updateFirst, hv]
      rw [h3]
      have h4 : findVote (v :: updateFirst vs u t) u =
          findVote (updateFirst vs u t) u := by
        simp [findVote, hv]
      rw [h4]
      exact ih h

theorem mem_updateFirst {votes : List VoteRow} {u : Nat} {t : String} :
    ∀ v' ∈ updateFirst votes u t, v' ∈ votes ∨ v'.vote_type = t := by
  induction votes with
  | nil => simp [updateFirst]
  | cons v vs ih =>
    intro v' hv'
    by_cases hv : v.user = u
    · rw [show updateFirst (v :: vs) u t = { v with vote_type := t } :: vs by
        simp [updateFirst, hv]] at hv'
      rcases List.mem_cons.mp hv' with rfl | h
      · exact Or.inr rfl
      · exact Or.inl (List.mem_cons_of_mem _ h)
    · rw [show updateFirst (v :: vs) u t = v :: updateFirst vs u t by
        simp [updateFirst, hv]] at hv'
      rcases List.mem_cons.mp hv' with rfl | h
      · exact Or.inl (List.mem_cons_self _ _)
      · rcases ih v' h with h1 | h1
        · exact Or.inl (List.mem_cons_of_mem _ h1)
        · exact Or.inr h1

theorem countType_pos_of_mem {votes : List VoteRow} {v : VoteRow}
    (hv : v ∈ votes) {t : String} (ht : v.vote_type = t) :
    1 ≤ countType votes t := by
  have : 0 < votes.countP (fun w => w.vote_type == t) :=
    List.countP_pos_iff.mpr ⟨v, hv, by simpa using ht⟩
  simpa [countType] using this

/-! ## Branch characterizations of the two vote handlers -/

theorem blogVotePost_invalid (s : BlogState) (u : Nat) (vt : String)
    (h : ¬ (vt = "upvote" ∨ vt = "downvote")) :
    blogVotePost s u vt = (s, .badRequest) := by
  simp [blogVotePost, h]

theorem blogVotePost_new_up (s : BlogState) (u : Nat)
    (h : findVote s.votes u = none) :
    blogVotePost s u "upvote" =
      ({ votes := s.votes ++ [(⟨u, "upvote"⟩ : VoteRow)],
         upvote_count := s.upvote_count + 1,
         downvote_count := s.downvote_count },
        .counts (s.upvote_count + 1) s.downvote_count) := by
  simp [blogVotePost, h]

theorem blogVotePost_new_down (s : BlogState) (u : Nat)
    (h : findVote s.votes u = none) :
    blogVotePost s u "downvote" =
      ({ votes := s.votes ++ [(⟨u, "downvote"⟩ : VoteRow)],
         upvote_count := s.upvote_count,
         downvote_count := s.downvote_count + 1 },
        .counts s.upvote_count (s.downvote_count + 1)) := by
  simp [blogVotePost, h]

theorem blogVotePost_same (s : BlogState) (u : Nat) (vt : String)
    (ev : VoteRow) (hvt : vt = "upvote" ∨ vt = "downvote")
    (h : findVote s.votes u = some ev) (he : ev.vote_type = vt) :
    blogVotePost s u vt = (s, .counts s.upvote_count s.downvote_count) := by
  rcases hvt with rfl | rfl <;> simp [blogVotePost, h, he]

theorem blogVotePost_flip_down_to_up (s : BlogState) (u : Nat) (ev : VoteRow)
    (h : findVote s.votes u = some ev) (he : ev.vote_type = "downvote") :
    blogVotePost s u "upvote" =
      ({ votes := updateFirst s.votes u "upvote",
         upvote_count := s.upvote_count + 1,
         downvote_count := s.downvote_count - 1 },
        .counts (s.upvote_count + 1) (s.downvote_count - 1)) := by
  simp [blogVotePost, h, he]

theorem blogVotePost_flip_up_to_down (s : BlogState) (u : Nat) (ev : VoteRow)
    (h : findVote s.votes u = some ev) (he : ev.vote_type = "upvote") :
    blogVotePost s u "downvote" =
      ({ votes := updateFirst s.votes u "downvote",
         upvote_count := s.upvote_count - 1,
         downvote_count := s.downvote_count + 1 },
        .counts (s.upvote_count - 1) (s.downvote_count + 1)) := by
  simp [blogVotePost, h, he]

theorem commentVotePost_invalid (s : CommentState) (u : Nat) (vt : String)
    (h : ¬ (vt = "upvote" ∨ vt = "downvote")) :
    commentVotePost s u vt = (s, .badRequest) := by
  simp [commentVotePost, h]

theorem commentVotePost_new_up (s : CommentState) (u : Nat)
    (h : findVote s.votes u = none) :
    commentVotePost s u "upvote" =
      ({ votes := s.votes ++ [(⟨u, "upvote"⟩ : VoteRow)],
         upvotes := s.upvotes + 1,
         downvotes := s.downvotes },
        .created "upvote") := by
  simp [commentVotePost, h]

theorem commentVotePost_new_down (s : CommentState) (u : Nat)
    (h : findVote s.votes u = none) :
    commentVotePost s u "downvote" =
      ({ votes := s.votes ++ [(⟨u, "downvote"⟩ : VoteRow)],
         upvotes := s.upvotes,
         downvotes := s.downvotes + 1 },
        .created "downvote") := by
  simp [commentVotePost, h]

theorem commentVotePost_same (s : CommentState) (u : Nat) (vt : String)
    (ev : VoteRow) (hvt : vt = "upvote" ∨ vt = "downvote")
    (h : findVote s.votes u = some ev) (he : ev.vote_type = vt) :
    commentVotePost s u vt = (s, .alreadyVoted) := by
  rcases hvt with rfl | rfl <;> simp [commentVotePost, h, he]

theorem commentVotePost_flip_down_to_up (s : CommentState) (u : Nat)
    (ev : VoteRow) (h : findVote s.votes u = some ev)
    (he : ev.vote_type = "downvote") :
    commentVotePost s u "upvote" =
      ({ votes := updateFirst s.votes u "upvote",
         upvotes := s.upvotes + 1,
         downvotes := max (s.downvotes - 1) 0 },
        .updated "upvote") := by
  simp [commentVotePost, h, he]

theorem commentVotePost_flip_up_to_down (s : CommentState) (u : Nat)
    (ev : VoteRow) (h : findVote s.votes u = some ev)
    (he : ev.vote_type = "upvote") :
    commentVotePost s u "downvote" =
      ({ votes := updateFirst s.votes u "downvote",
         upvotes := max (s.upvotes - 1) 0,
         downvotes := s.downvotes + 1 },
        .updated "downvote") := by
  simp [commentVotePost, h, he]

/-! ## Counter invariant preservation (C1) -/

theorem blogVotePost_inv {s : BlogState} (u : Nat) (vt : String)
    (hs : BlogInv s) : BlogInv (blogVotePost s u vt).1 := by
  obtain ⟨hwf, hup, hdown⟩ := hs
  by_cases hvt : vt = "upvote" ∨ vt = "downvote"
  · rcases hfind : findVote s.votes u with _ | ev
    · rcases hvt with rfl | rfl
      · rw [blogVotePost_new_up s u hfind]
        refine ⟨?_, ?_, ?_⟩
        · intro v hv
          rcases List.mem_append.mp hv with h | h
          · exact hwf v h
          · simp only [List.mem_singleton] at h; subst h; exact Or.inl rfl
        · have hcu := countType_append s.votes ⟨u, "upvote"⟩ "upvote"
          simp only [] at hcu; simp at hcu ⊢; omega
        · have hcd := countType_append s.votes ⟨u, "upvote"⟩ "downvote"
          simp only [] at hcd; simp at hcd ⊢; omega
      · rw [blogVotePost_new_down s u hfind]
        refine ⟨?_, ?_, ?_⟩
        · intro v hv
          rcases List.mem_append.mp hv with h | h
          · exact hwf v h
          · simp only [List.mem_singleton] at h; subst h; exact Or.inr rfl
        · have hcu := countType_append s.votes ⟨u, "downvote"⟩ "upvote"
          simp only [] at hcu; simp at hcu ⊢; omega
        · have hcd := countType_append s.votes ⟨u, "downvote"⟩ "downvote"
          simp only [] at hcd; simp at hcd ⊢; omega
    · have hmem := (findVote_mem hfind).1
      rcases hvt with rfl | rfl
      · by_cases hev : ev.vote_type = "upvote"
        · rw [blogVotePost_same s u "upvote" ev (Or.inl rfl) hfind hev]
          exact ⟨hwf, hup, hdown⟩
        · have hed : ev.vote_type = "downvote" := by
            rcases hwf ev hmem with h | h
            · exact absurd h hev
            · exact h
          rw [blogVotePost_flip_down_to_up s u ev hfind hed]
          refine ⟨?_, ?_, ?_⟩
          · intro v hv
            rcases mem_updateFirst v hv with h | h
            · exact hwf v h
            · exact Or.inl h
          · have hcu := countType_updateFirst "upvote" "upvote" hfind
            simp [hed] at hcu; simp; omega
          · have hcd := countType_updateFirst "upvote" "downvote" hfind
            simp [hed] at hcd; simp; omega
      · by_cases hev : ev.vote_type = "downvote"
        · rw [blogVotePost_same s u "downvote" ev (Or.inr rfl) hfind hev]
          exact ⟨hwf, hup, hdown⟩
        · have heu : ev.vote_type = "upvote" := by
            rcases hwf ev hmem with h | h
            · exact h
            · exact absurd h hev
          rw [blogVotePost_flip_up_to_down s u ev hfind heu]
          refine ⟨?_, ?_, ?_⟩
          · intro v hv
            rcases mem_updateFirst v hv with h | h
            · exact hwf v h
            · exact Or.inr h
          · have hcu := countType_updateFirst "downvote" "upvote" hfind
            simp [heu] at hcu; simp; omega
          · have hcd := countType_updateFirst "downvote" "downvote" hfind
            simp [heu] at hcd; simp; omega
  · rw [blogVotePost_invalid s u vt hvt]
    exact ⟨hwf, hup, hdown⟩

theorem commentVotePost_inv {s : CommentState} (u : Nat) (vt : String)
    (hs : CommentInv s) : CommentInv (commentVotePost s u vt).1 := by
  obtain ⟨hwf, hup, hdown⟩ := hs
  by_cases hvt : vt = "upvote" ∨ vt = "downvote"
  · rcases hfind : findVote s.votes u with _ | ev
    · rcases hvt with rfl | rfl
      · rw [commentVotePost_new_up s u hfind]
        refine ⟨?_, ?_, ?_⟩
        · intro v hv
          rcases List.mem_append.mp hv with h | h
          · exact hwf v h
          · simp only [List.mem_singleton] at h; subst h; exact Or.inl rfl
        · have hcu := countType_append s.votes ⟨u, "upvote"⟩ "upvote"
          simp only [] at hcu; simp at hcu ⊢; omega
        · have hcd := countType_append s.votes ⟨u, "upvote"⟩ "downvote"
          simp only [] at hcd; simp at hcd ⊢; omega
      · rw [commentVotePost_new_down s u hfind]
        refine ⟨?_, ?_, ?_⟩
        · intro v hv
          rcases List.mem_append.mp hv with h | h
          · exact hwf v h
          · simp only [List.mem_singleton] at h; subst h; exact Or.inr rfl
        · have hcu := countType_append s.votes ⟨u, "downvote"⟩ "upvote"
          simp only [] at hcu; simp at hcu ⊢; omega
        · have hcd := countType_append s.votes ⟨u, "downvote"⟩ "downvote"
          simp only [] at hcd; simp at hcd ⊢; omega
    · have hmem := (findVote_mem hfind).1
      rcases hvt with rfl | rfl
      · by_cases hev : ev.vote_type = "upvote"
        · rw [commentVotePost_same s u "upvote" ev (Or.inl rfl) hfind hev]
          exact ⟨hwf, hup, hdown⟩
        · have hed : ev.vote_type = "downvote" := by
            rcases hwf ev hmem with h | h
            · exact absurd h hev
            · exact h
          have hpos := countType_pos_of_mem hmem hed
          rw [commentVotePost_flip_down_to_up s u ev hfind hed]
          refine ⟨?_, ?_, ?_⟩
          · intro v hv
            rcases mem_updateFirst v hv with h | h
            · exact hwf v h
            · exact Or.inl h
          · have hcu := countType_updateFirst "upvote" "upvote" hfind
            simp [hed] at hcu; simp; omega
          · have hcd := countType_updateFirst "upvote" "downvote" hfind
            simp [hed] at hcd; simp; omega
      · by_cases hev : ev.vote_type = "downvote"
        · rw [commentVotePost_same s u "downvote" ev (Or.inr rfl) hfind hev]
          exact ⟨hwf, hup, hdown⟩
        · have heu : ev.vote_type = "upvote" := by
            rcases hwf ev hmem with h | h
            · exact h
            · exact absurd h hev
          have hpos := countType_pos_of_mem hmem heu
          rw [commentVotePost_flip_up_to_down s u ev hfind heu]
          refine ⟨?_, ?_, ?_⟩
          · intro v hv
            rcases mem_updateFirst v hv with h | h
            · exact hwf v h
            · exact Or.inr h
          · have hcu := countType_updateFirst "downvote" "upvote" hfind
            simp [heu] at hcu; simp; omega
          · have hcd := countType_updateFirst "downvote" "downvote" hfind
            simp [heu] at hcd; simp; omega
  · rw [commentVotePost_invalid s u vt hvt]
    exact ⟨hwf, hup, hdown⟩

theorem applyBlogVotes_inv (ops : List (Nat × String)) :
    ∀ s : BlogState, BlogInv s → BlogInv (applyBlogVotes ops s) := by
  induction ops with
  | nil => intro s hs; simpa [applyBlogVotes] using hs
  | cons op ops ih =>
    intro s hs
    have h1 : applyBlogVotes (op :: ops) s =
        applyBlogVotes ops (blogVotePost s op.1 op.2).1 := by
      simp [applyBlogVotes]
    rw [h1]
    exact ih _ (blogVotePost_inv op.1 op.2 hs)

theorem applyCommentVotes_inv (ops : List (Nat × String)) :
    ∀ s : CommentState, CommentInv s → CommentInv (applyCommentVotes ops s) := by
  induction ops with
  | nil => intro s hs; simpa [applyCommentVotes] using hs
  | cons op ops ih =>
    intro s hs
    have h1 : applyCommentVotes (op :: ops) s =
        applyCommentVotes ops (commentVotePost s op.1 op.2).1 := by
      simp [applyCommentVotes]
    rw [h1]
    exact ih _ (commentVotePost_inv op.1 op.2 hs)

theorem initBlogState_inv : BlogInv initBlogState := by
  refine ⟨?_, ?_, ?_⟩ <;> simp [initBlogState, countType]

theorem initCommentState_inv : CommentInv initCommentState := by
  refine ⟨?_, ?_, ?_⟩ <;> simp [initCommentState, countType]

/-- C1: after any sequence of requests through the vote endpoints, starting
from a fresh target, the stored `upvote_count` equals the number of vote
rows with `vote_type = "upvote"` and the stored `downvote_count` equals the
number of rows with `vote_type = "downvote"`, for blogs and for comments
alike (sequences by distinct users are the special case in which no user
repeats). -/
theorem counters_equal_vote_rows (bops cops : List (Nat × String)) :
    (applyBlogVotes bops initBlogState).upvote_count =
      (countType (applyBlogVotes bops initBlogState).votes "upvote" : Nat) ∧
    (applyBlogVotes bops initBlogState).downvote_count =
      (countType (applyBlogVotes bops initBlogState).votes "downvote" : Nat) ∧
    (applyCommentVotes cops initCommentState).upvotes =
      (countType (applyCommentVotes cops initCommentState).votes "upvote" : Nat) ∧
    (applyCommentVotes cops initCommentState).downvotes =
      (countType (applyCommentVotes cops initCommentState).votes "downvote" : Nat) := by
  obtain ⟨_, hbu, hbd⟩ := applyBlogVotes_inv bops initBlogState initBlogState_inv
  obtain ⟨_, hcu, hcd⟩ :=
    applyCommentVotes_inv cops initCommentState initCommentState_inv
  exact ⟨hbu, hbd, hcu, hcd⟩

/-- C2: per-request case analysis of both vote endpoints.  No prior vote:
a row is created and the matching counter incremented by one.  Prior vote
of the same type: the blog variant silently no-ops returning the current
counters, the comment variant returns the conflict error and changes
nothing.  Prior vote of a different type: the stored row's vote type is
flipped, the old counter decremented (floored at 0 for comments) and the
new counter incremented. -/
theorem vote_step_case_analysis (s : BlogState) (c : CommentState) (u : Nat)
    (vt : String) (hvt : vt = "upvote" ∨ vt = "downvote") :
    (findVote s.votes u = none →
      (blogVotePost s u vt).1.votes = s.votes ++ [(⟨u, vt⟩ : VoteRow)] ∧
      (vt = "upvote" →
        (blogVotePost s u vt).1.upvote_count = s.upvote_count + 1 ∧
        (blogVotePost s u vt).1.downvote_count = s.downvote_count) ∧
      (vt = "downvote" →
        (blogVotePost s u vt).1.upvote_count = s.upvote_count ∧
        (blogVotePost s u vt).1.downvote_count = s.downvote_count + 1)) ∧
    (∀ ev, findVote s.votes u = some ev → ev.vote_type = vt →
      blogVotePost s u vt = (s, .counts s.upvote_count s.downvote_count)) ∧
    (∀ ev, findVote s.votes u = some ev → ev.vote_type ≠ vt →
      (ev.vote_type = "upvote" ∨ ev.vote_type = "downvote") →
      findVote (blogVotePost s u vt).1.votes u = some ⟨u, vt⟩ ∧
      (vt = "upvote" →
        (blogVotePost s u vt).1.upvote_count = s.upvote_count + 1 ∧
        (blogVotePost s u vt).1.downvote_count = s.downvote_count - 1) ∧
      (vt = "downvote" →
        (blogVotePost s u vt).1.upvote_count = s.upvote_count - 1 ∧
        (blogVotePost s u vt).1.downvote_count = s.downvote_count + 1)) ∧
    (findVote c.votes u = none →
      (commentVotePost c u vt).1.votes = c.votes ++ [(⟨u, vt⟩ : VoteRow)] ∧
      (vt = "upvote" →
        (commentVotePost c u vt).1.upvotes = c.upvotes + 1 ∧
        (commentVotePost c u vt).1.downvotes = c.downvotes) ∧
      (vt = "downvote" →
        (commentVotePost c u vt).1.upvotes = c.upvotes ∧
        (commentVotePost c u vt).1.downvotes = c.downvotes + 1)) ∧
    (∀ ev, findVote c.votes u = some ev → ev.vote_type = vt →
      commentVotePost c u vt = (c, .alreadyVoted)) ∧
    (∀ ev, findVote c.votes u = some ev → ev.vote_type ≠ vt →
      (ev.vote_type = "upvote" ∨ ev.vote_type = "downvote") →
      findVote (commentVotePost c u vt).1.votes u = some ⟨u, vt⟩ ∧
      (vt = "upvote" →
        (commentVotePost c u vt).1.upvotes = c.upvotes + 1 ∧
        (commentVotePost c u vt).1.downvotes = max (c.downvotes - 1) 0) ∧
      (vt = "downvote" →
        (commentVotePost c u vt).1.upvotes = max (c.upvotes - 1) 0 ∧
        (commentVotePost c u vt).1.downvotes = c.downvotes + 1)) := by
  refine ⟨?_, ?_, ?_, ?_, ?_, ?_⟩
  · intro hfind
    rcases hvt with rfl | rfl
    · rw [blogVotePost_new_up s u hfind]
      exact ⟨rfl, fun _ => ⟨rfl, rfl⟩, fun h => absurd h (by decide)⟩
    · rw [blogVotePost_new_down s u hfind]
      exact ⟨rfl, fun h => absurd h (by decide), fun _ => ⟨rfl, rfl⟩⟩
  · intro ev hfind he
    exact blogVotePost_same s u vt ev hvt hfind he
  · intro ev hfind hne hev
    rcases hvt with rfl | rfl
    · have hed : ev.vote_type = "downvote" := by
        rcases hev with h | h
        · exact absurd h hne
        · exact h
      rw [blogVotePost_flip_down_to_up s u ev hfind hed]
      exact ⟨findVote_updateFirst "upvote" hfind,
        fun _ => ⟨rfl, rfl⟩, fun h => absurd h (by decide)⟩
    · have heu : ev.vote_type = "upvote" := by
        rcases hev with h | h
        · exact h
        · exact absurd h hne
      rw [blogVotePost_flip_up_to_down s u ev hfind heu]
      exact ⟨findVote_updateFirst "downvote" hfind,
        fun h => absurd h (by decide), fun _ => ⟨rfl, rfl⟩⟩
  · intro hfind
    rcases hvt with rfl | rfl
    · rw [commentVotePost_new_up c u hfind]
      exact ⟨rfl, fun _ => ⟨rfl, rfl⟩, fun h => absurd h (by decide)⟩
    · rw [commentVotePost_new_down c u hfind]
      exact ⟨rfl, fun h => absurd h (by decide), fun _ => ⟨rfl, rfl⟩⟩
  · intro ev hfind he
    exact commentVotePost_same c u vt ev hvt hfind he
  · intro ev hfind hne hev
    rcases hvt with rfl | rfl
    · have hed : ev.vote_type = "downvote" := by
        rcases hev with h | h
        · exact absurd h hne
        · exact h
      rw [commentVotePost_flip_down_to_up c u ev hfind hed]
      exact ⟨findVote_updateFirst "upvote" hfind,
        fun _ => ⟨rfl, rfl⟩, fun h => absurd h (by decide)⟩
    · have heu : ev.vote_type = "upvote" := by
        rcases hev with h | h
        · exact h
        · exact absurd h hne
      rw [commentVotePost_flip_up_to_down c u ev hfind heu]
      exact ⟨findVote_updateFirst "downvote" hfind,
        fun h => absurd h (by decide), fun _ => ⟨rfl, rfl⟩⟩

/-- Witness for C2: the case analysis instantiated on a fresh blog and a
comment that already holds an upvote by user 1. -/
theorem vote_step_case_analysis_witness :
    (blogVotePost initBlogState 1 "upvote").1.votes =
      [(⟨1, "upvote"⟩ : VoteRow)] ∧
    (blogVotePost initBlogState 1 "upvote").1.upvote_count = 1 ∧
    commentVotePost ⟨[⟨1, "upvote"⟩], 1, 0⟩ 1 "upvote" =
      (⟨[⟨1, "upvote"⟩], 1, 0⟩, .alreadyVoted) := by
  have h := vote_step_case_analysis initBlogState ⟨[⟨1, "upvote"⟩], 1, 0⟩ 1
    "upvote" (Or.inl rfl)
  have h1 := h.1 (by rfl)
  have h2 := h.2.2.2.2.1 ⟨1, "upvote"⟩ (by rfl) rfl
  refine ⟨?_, ?_, h2⟩
  · simpa [initBlogState] using h1.1
  · simpa [initBlogState] using (h1.2.1 rfl).1

/-- C7: requests that fail validation return a 400 with field-level
errors and mutate nothing: an invalid vote type leaves the blog state and
the comment state untouched, and registration with a taken username or
email leaves the user table untouched. -/
theorem validation_failures_do_not_mutate (s : BlogState) (c : CommentState)
    (users : List UserRec) (u : Nat) (vt username email : String)
    (hvt : ¬ (vt = "upvote" ∨ vt = "downvote"))
    (hreg : usernameExists users username = true ∨
      emailExists users email = true) :
    blogVotePost s u vt = (s, .badRequest) ∧
    commentVotePost c u vt = (c, .badRequest) ∧
    registerPost users username email =
      (users, .validationErrors (usernameExists users username)
        (emailExists users email)) := by
  refine ⟨blogVotePost_invalid s u vt hvt,
    commentVotePost_invalid c u vt hvt, ?_⟩
  rcases hreg with h | h <;> simp [registerPost, h]

/-- Witness for C7: the vote type "sideways" is rejected without touching
a fresh blog or comment, and registering the taken username "alice" adds
no user row. -/
theorem validation_failures_do_not_mutate_witness :
    blogVotePost initBlogState 1 "sideways" = (initBlogState, .badRequest) ∧
    commentVotePost initCommentState 1 "sideways" =
      (initCommentState, .badRequest) ∧
    registerPost [⟨"alice", "alice@x.io"⟩] "alice" "bob@x.io" =
      ([⟨"alice", "alice@x.io"⟩], .validationErrors true false) := by
  have h := validation_failures_do_not_mutate initBlogState initCommentState
    [⟨"alice", "alice@x.io"⟩] 1 "sideways" "alice" "bob@x.io"
    (by decide) (Or.inl (by decide))
  refine ⟨h.1, h.2.1, ?_⟩
  have h3 := h.2.2
  rw [h3]
  decide

/-- C9: the serialized `upvotes` / `downvotes` of a blog are computed by
counting `BlogVote` rows of the matching type, so they equal the
authoritative row counts in every state — including the drifted state a
vote race produces, where they differ from the stored counter — whereas
the vote endpoint's response reports the stored counter fields of the
post-request state. -/
theorem serialized_votes_count_rows (s : BlogState) (u : Nat) (vt : String)
    (hvt : vt = "upvote" ∨ vt = "downvote") :
    get_upvotes s = countType s.votes "upvote" ∧
    get_downvotes s = countType s.votes "downvote" ∧
    (blogVotePost s u vt).2 =
      .counts (blogVotePost s u vt).1.upvote_count
        (blogVotePost s u vt).1.downvote_count ∧
    (get_upvotes racedState = 2 ∧ racedState.upvote_count = 1) := by
  refine ⟨?_, ?_, ?_, by decide⟩
  · simp [get_upvotes, countType, List.countP_eq_length_filter]
  · simp [get_downvotes, countType, List.countP_eq_length_filter]
  · rcases hfind : findVote s.votes u with _ | ev
    · rcases hvt with rfl | rfl
      · rw [blogVotePost_new_up s u hfind]
      · rw [blogVotePost_new_down s u hfind]
    · by_cases hne : ev.vote_type = vt
      · rw [blogVotePost_same s u vt ev hvt hfind hne]
      · rcases hvt with rfl | rfl
        · have hed : ev.vote_type = "downvote" ∨ ¬ ev.vote_type = "downvote" :=
            em _
          rcases hed with hed | hed
          · rw [blogVotePost_flip_down_to_up s u ev hfind hed]
          · simp [blogVotePost, hfind, hne, hed]
        · have heu : ev.vote_type = "upvote" ∨ ¬ ev.vote_type = "upvote" := em _
          rcases heu with heu | heu
          · rw [blogVotePost_flip_up_to_down s u ev hfind heu]
          · simp [blogVotePost, hfind, hne, heu]

/-- Witness for C9: the raced state itself, where the serializer reports
the row count 2 while the stored counter holds 1, and a further upvote by
user 3 responds with the stored counters. -/
theorem serialized_votes_count_rows_witness :
    get_upvotes racedState = 2 ∧
    racedState.upvote_count = 1 ∧
    (blogVotePost racedState 3 "upvote").2 =
      .counts (blogVotePost racedState 3 "upvote").1.upvote_count
        (blogVotePost racedState 3 "upvote").1.downvote_count := by
  have h := serialized_votes_count_rows racedState 3 "upvote" (Or.inl rfl)
  exact ⟨h.2.2.2.1, h.2.2.2.2, h.2.2.1⟩

/-- Sequential sanity of the read/write decomposition: a request whose
read phase and write phase run back to back with no interleaved writer is
exactly `BlogVoteView.post`. -/
theorem blogVoteWrite_read_eq_post (s : BlogState) (u : Nat) (vt : String)
    (hvt : vt = "upvote" ∨ vt = "downvote") :
    blogVoteWrite s (blogVoteRead s u) u vt = (blogVotePost s u vt).1 := by
  rcases hfind : findVote s.votes u with _ | ev
  · rcases hvt with rfl | rfl <;>
      simp [blogVoteWrite, blogVoteRead, blogVotePost, hfind]
  · by_cases hne : ev.vote_type = vt
    · rcases hvt with rfl | rfl <;>
        simp [blogVoteWrite, blogVoteRead, blogVotePost, hfind, hne]
    · rcases hvt with rfl | rfl <;>
        by_cases hx : ev.vote_type = "upvote" <;>
        simp [blogVoteWrite, blogVoteRead, blogVotePost, hfind, hne, hx]

/-- C8: the vote handler's mutations are not applied as one atomic unit.
In the lost-update interleaving of two concurrent upvote requests on a
fresh blog (both read phases before either write phase), the final store
holds two upvote rows while the stored counter reads 1, diverging from
the row count. -/
theorem concurrent_votes_can_diverge :
    racedState.votes = [⟨1, "upvote"⟩, ⟨2, "upvote"⟩] ∧
    countType racedState.votes "upvote" = 2 ∧
    racedState.upvote_count = 1 := by
  decide

/-- C3 counterexample: on the detail route (`DELETE /blogs/1/`), an
authenticated requester (user 2) who is not the author (user 1) deletes
the blog and receives 204, not the 403-and-no-change the claim requires
of every non-author requester. -/
theorem blog_detail_delete_ignores_author :
    (2 ≠ (⟨1, "t", 1, "alice", "c", [], true⟩ : BlogRec).author) ∧
    blogDetailViewDelete
        [(⟨1, "t", 1, "alice", "c", [], true⟩ : BlogRec)] 2 1 = ([], 204) := by
  decide

/-- C3 amended: on the dedicated delete route (`BlogDeleteView`), the
blog is deleted exactly when the requester is its author, and any other
requester receives 403 with the table unchanged; on the generic detail
route (`BlogDetailView`), every authenticated requester — author or not —
deletes the blog with 204.  No route variant grants superusers a bypass
for blog deletion. -/
theorem blog_delete_authorization (table : List BlogRec)
    (r blog_id : Nat) (blog : BlogRec)
    (hfind : table.find? (fun b => b.id == blog_id) = some blog) :
    (blog.author ≠ r → blogDeleteViewDelete table r blog_id = (table, 403)) ∧
    (blog.author = r →
      (blogDeleteViewDelete table r blog_id).2 = 204 ∧
      ∀ b, b ∈ (blogDeleteViewDelete table r blog_id).1 ↔
        (b ∈ table ∧ b.id ≠ blog_id)) ∧
    ((blogDetailViewDelete table r blog_id).2 = 204 ∧
      ∀ b, b ∈ (blogDetailViewDelete table r blog_id).1 ↔
        (b ∈ table ∧ b.id ≠ blog_id)) := by
  refine ⟨?_, ?_, ?_⟩
  · intro hne
    simp [blogDeleteViewDelete, hfind, fun h => hne h]
  · intro heq
    constructor
    · simp [blogDeleteViewDelete, hfind, heq]
    · intro b
      simp [blogDeleteViewDelete, hfind, heq, List.mem_filter]
  · constructor
    · simp [blogDetailViewDelete, hfind]
    · intro b
      simp [blogDetailViewDelete, hfind, List.mem_filter]

/-- Witness for C3 amended: user 2 is refused on the dedicated route
(403, table unchanged) while user 1, the author, deletes with 204. -/
theorem blog_delete_authorization_witness :
    blogDeleteViewDelete
        [(⟨1, "t", 1, "alice", "c", [], true⟩ : BlogRec)] 2 1 =
      ([(⟨1, "t", 1, "alice", "c", [], true⟩ : BlogRec)], 403) ∧
    (blogDeleteViewDelete
        [(⟨1, "t", 1, "alice", "c", [], true⟩ : BlogRec)] 1 1).2 = 204 := by
  have h := blog_delete_authorization
    [(⟨1, "t", 1, "alice", "c", [], true⟩ : BlogRec)] 2 1
    ⟨1, "t", 1, "alice", "c", [], true⟩ (by decide)
  have h2 := blog_delete_authorization
    [(⟨1, "t", 1, "alice", "c", [], true⟩ : BlogRec)] 1 1
    ⟨1, "t", 1, "alice", "c", [], true⟩ (by decide)
  exact ⟨h.1 (by decide), (h2.2.1 rfl).1⟩

/-! ## Insertion-sort lemmas (the `ORDER BY` embedding) -/

theorem mem_insertLe (le : α → α → Bool) (a x : α) (l : List α) :
    x ∈ insertLe le a l ↔ x = a ∨ x ∈ l := by
  induction l with
  | nil => simp [insertLe]
  | cons y ys ih =>
    by_cases h : le a y
    · simp [insertLe, h]
    · simp [insertLe, h, ih]
      tauto

theorem insertLe_perm (le : α → α → Bool) (a : α) (l : List α) :
    (insertLe le a l).Perm (a :: l) := by
  induction l with
  | nil => simp [insertLe]
  | cons y ys ih =>
    by_cases h : le a y
    · simp [insertLe, h]
    · rw [show insertLe le a (y :: ys) = y :: insertLe le a ys by
        simp [insertLe, h]]
      exact (ih.cons y).trans (List.Perm.swap a y ys)

theorem sortLe_perm (le : α → α → Bool) (l : List α) :
    (sortLe le l).Perm l := by
  induction l with
  | nil => simp [sortLe]
  | cons y ys ih =>
    exact (insertLe_perm le y (sortLe le ys)).trans (ih.cons y)

theorem mem_sortLe (le : α → α → Bool) (x : α) (l : List α) :
    x ∈ sortLe le l ↔ x ∈ l :=
  (sortLe_perm le l).mem_iff

theorem pairwise_insertLe (le : α → α → Bool)
    (htot : ∀ a b, le a b = false → le b a = true)
    (htrans : ∀ a b c, le a b = true → le b c = true → le a c = true)
    (a : α) (l : List α) (h : l.Pairwise (fun x y => le x y = true)) :
    (insertLe le a l).Pairwise (fun x y => le x y = true) := by
  induction l with
  | nil => simp [insertLe]
  | cons y ys ih =>
    rcases List.pairwise_cons.mp h with ⟨hy, hys⟩
    by_cases hle : le a y
    · rw [show insertLe le a (y :: ys) = a :: y :: ys by simp [insertLe, hle]]
      refine List.pairwise_cons.mpr ⟨?_, h⟩
      intro z hz
      rcases List.mem_cons.mp hz with rfl | hz'
      · exact hle
      · exact htrans a y z hle (hy z hz')
    · rw [show insertLe le a (y :: ys) = y :: insertLe le a ys by
        simp [insertLe, hle]]
      refine List.pairwise_cons.mpr ⟨?_, ih hys⟩
      intro z hz
      rcases (mem_insertLe le a z ys).mp hz with h1 | h1
      · rw [h1]
        exact htot a y (by simpa using hle)
      · exact hy z h1

theorem sortLe_pairwise (le : α → α → Bool)
    (htot : ∀ a b, le a b = false → le b a = true)
    (htrans : ∀ a b c, le a b = true → le b c = true → le a c = true)
    (l : List α) : (sortLe le l).Pairwise (fun x y => le x y = true) := by
  induction l with
  | nil => simp [sortLe]
  | cons y ys ih => exact pairwise_insertLe le htot htrans y (sortLe le ys) ih

/-! ## Listing lemmas (C4) -/

theorem mem_applyAuthor {qs : List BlogRec} {b : BlogRec} (a : Option String) :
    b ∈ applyAuthor qs a ↔
      b ∈ qs ∧ (∀ s, a = some s → s.isEmpty = false → b.author_username = s) := by
  cases a with
  | none => simp [applyAuthor]
  | some s =>
    by_cases hs : s.isEmpty
    · simp [applyAuthor, hs]
    · simp [applyAuthor, hs, List.mem_filter]

theorem mem_applyCategory {qs : List BlogRec} {b : BlogRec}
    (c : Option String) :
    b ∈ applyCategory qs c ↔
      b ∈ qs ∧
        (∀ s, c = some s → s.isEmpty = false → icontains b.category s = true) := by
  cases c with
  | none => simp [applyCategory]
  | some s =>
    by_cases hs : s.isEmpty
    · simp [applyCategory, hs]
    · simp [applyCategory, hs, List.mem_filter]

theorem mem_applySearchTitle {qs : List BlogRec} {b : BlogRec}
    (q : Option String) :
    b ∈ applySearchTitle qs q ↔
      b ∈ qs ∧
        (∀ s, q = some s → s.isEmpty = false → icontains b.title s = true) := by
  cases q with
  | none => simp [applySearchTitle]
  | some s =>
    by_cases hs : s.isEmpty
    · simp [applySearchTitle, hs]
    · simp [applySearchTitle, hs, List.mem_filter]


theorem mem_applyTags {qs : List BlogRec} {b : BlogRec} (tags : List String) :
    b ∈ applyTags qs tags ↔
      b ∈ qs ∧ (tags ≠ [] → ∃ t ∈ b.tags, t ∈ tags) := by
  cases tags with
  | nil => simp [applyTags]
  | cons t ts =>
    simp only [applyTags, List.mem_filter, List.any_eq_true]
    constructor
    · intro h
      refine ⟨h.1, fun _ => ?_⟩
      obtain ⟨x, hx, hmem⟩ := h.2
      exact ⟨x, hx, by simpa using hmem⟩
    · intro h
      obtain ⟨x, hx, hmem⟩ := h.2 (by simp)
      exact ⟨h.1, ⟨x, hx, by simpa using hmem⟩⟩

theorem pairwise_applyAll {R : BlogRec → BlogRec → Prop} {qs : List BlogRec}
    (h : qs.Pairwise R) (a c : Option String) (ts : List String)
    (q : Option String) :
    (applySearchTitle (applyTags (applyCategory (applyAuthor qs a) c) ts)
      q).Pairwise R := by
  have h1 : (applyAuthor qs a).Pairwise R := by
    cases a with
    | none => exact h
    | some s =>
      dsimp [applyAuthor]
      split
      · exact h
      · exact h.sublist (List.filter_sublist _)
  have h2 : (applyCategory (applyAuthor qs a) c).Pairwise R := by
    cases c with
    | none => exact h1
    | some s =>
      dsimp [applyCategory]
      split
      · exact h1
      · exact h1.sublist (List.filter_sublist _)
  have h3 : (applyTags (applyCategory (applyAuthor qs a) c) ts).Pairwise R := by
    cases ts with
    | nil => exact h2
    | cons t ts' =>
      dsimp [applyTags]
      exact h2.sublist (List.filter_sublist _)
  cases q with
  | none => exact h3
  | some s =>
    dsimp [applySearchTitle]
    split
    · exact h3
    · exact h3.sublist (List.filter_sublist _)

theorem get_queryset_sorted (table : List BlogRec) (p : ListingParams) :
    (get_queryset table p).Pairwise (fun x y => x.id ≤ y.id) := by
  have htot : ∀ a b : BlogRec,
      decide (a.id ≤ b.id) = false → decide (b.id ≤ a.id) = true := by
    intro a b h
    simp at h ⊢
    omega
  have htrans : ∀ a b c : BlogRec, decide (a.id ≤ b.id) = true →
      decide (b.id ≤ c.id) = true → decide (a.id ≤ c.id) = true := by
    intro a b c h1 h2
    simp at h1 h2 ⊢
    omega
  have h0 := sortLe_pairwise (fun x y : BlogRec => decide (x.id ≤ y.id)) htot
    htrans (table.filter (fun b => b.is_published))
  have h1 : (sortById (table.filter (fun b => b.is_published))).Pairwise
      (fun x y : BlogRec => x.id ≤ y.id) := by
    exact (List.Pairwise.imp (fun h => of_decide_eq_true h)) h0
  exact pairwise_applyAll h1 p.author p.category p.tags p.search_title

/-- C4: the all-blogs listing contains exactly the published blogs passing
every supplied filter (exact author username; case-insensitive substring
on category; at least one tag among the supplied tag usernames;
case-insensitive substring on title), ordered by id ascending; the served
page is the contiguous slice of that queryset at offset
`(page - 1) * page_size`, of length at most the page size, with default
page size 10 and a caller-supplied positive page size capped at 50. -/
theorem all_blogs_listing_spec (table : List BlogRec) (p : ListingParams) :
    (∀ b, b ∈ get_queryset table p ↔
      b ∈ table ∧ b.is_published = true ∧
      (∀ s, p.author = some s → s.isEmpty = false → b.author_username = s) ∧
      (∀ s, p.category = some s → s.isEmpty = false →
        icontains b.category s = true) ∧
      (p.tags ≠ [] → ∃ t ∈ b.tags, t ∈ p.tags) ∧
      (∀ s, p.search_title = some s → s.isEmpty = false →
        icontains b.title s = true)) ∧
    (get_queryset table p).Pairwise (fun x y => x.id ≤ y.id) ∧
    allBlogsPage table p =
      ((get_queryset table p).drop
        ((p.page - 1) * get_page_size p.page_size)).take
          (get_page_size p.page_size) ∧
    (allBlogsPage table p).length ≤ get_page_size p.page_size ∧
    get_page_size none = 10 ∧
    (∀ n, 0 < n → get_page_size (some n) = min n 50) := by
  refine ⟨?_, get_queryset_sorted table p, rfl, ?_, rfl, ?_⟩
  · intro b
    unfold get_queryset
    rw [mem_applySearchTitle, mem_applyTags, mem_applyCategory, mem_applyAuthor]
    simp only [sortById, mem_sortLe, List.mem_filter]
    tauto
  · exact List.length_take_le _ _
  · intro n hn
    simp [get_page_size, Nat.pos_iff_ne_zero.mp hn]

/-- Witness for C4: a two-blog table with a category filter; the theorem
instantiated there confirms the unpublished blog is excluded and the page
size facts hold. -/
theorem all_blogs_listing_spec_witness :
    (⟨1, "A", 1, "alice", "Tech", [], true⟩ : BlogRec) ∈
      get_queryset
        [⟨1, "A", 1, "alice", "Tech", [], true⟩,
         ⟨2, "B", 1, "alice", "Tech", [], false⟩]
        ⟨none, some "tech", [], none, 1, none⟩ ∧
    ¬ (⟨2, "B", 1, "alice", "Tech", [], false⟩ : BlogRec) ∈
      get_queryset
        [⟨1, "A", 1, "alice", "Tech", [], true⟩,
         ⟨2, "B", 1, "alice", "Tech", [], false⟩]
        ⟨none, some "tech", [], none, 1, none⟩ ∧
    get_page_size none = 10 ∧
    get_page_size (some 200) = 50 := by
  have h := all_blogs_listing_spec
    [⟨1, "A", 1, "alice", "Tech", [], true⟩,
     ⟨2, "B", 1, "alice", "Tech", [], false⟩]
    ⟨none, some "tech", [], none, 1, none⟩
  refine ⟨?_, ?_, h.2.2.2.2.1, ?_⟩
  · refine (h.1 _).mpr ?_
    refine ⟨by simp, rfl, by simp, ?_, by simp, by simp⟩
    intro s hs _
    cases hs
    decide
  · intro hmem
    have h2 := (h.1 _).mp hmem
    simp at h2
  · have := h.2.2.2.2.2 200 (by omega)
    rw [this]
    decide

/-! ## Comment-creation lemmas (C10) -/

theorem commentsInv_append (st : CommentsState) (bid : Nat)
    (parent : Option Nat) (cat : Nat) (hinv : CommentsInv st)
    (hp : ∀ p, parent = some p →
      ∃ pc, pc ∈ st.comments ∧ pc.id = p ∧ pc.blog = bid) :
    CommentsInv
      ⟨st.comments ++ [(⟨st.nextId, bid, parent, cat⟩ : CommentRec)],
        st.nextId + 1⟩ := by
  obtain ⟨hids, hpar⟩ := hinv
  constructor
  · intro c hc
    rcases List.mem_append.mp hc with h | h
    · exact Nat.lt_succ_of_lt (hids c h)
    · simp only [List.mem_singleton] at h
      subst h
      exact Nat.lt_succ_self _
  · intro c hc pp hpp
    rcases List.mem_append.mp hc with h | h
    · obtain ⟨h1, q, hq, hq2, hq3⟩ := hpar c h pp hpp
      exact ⟨h1, q, List.mem_append.mpr (Or.inl hq), hq2, hq3⟩
    · simp only [List.mem_singleton] at h
      subst h
      simp only at hpp
      obtain ⟨pc, hpc, hpcid, hpcblog⟩ := hp pp hpp
      refine ⟨?_, pc, List.mem_append.mpr (Or.inl hpc), hpcid, by
        simpa using hpcblog⟩
      have := hids pc hpc
      simp only
      omega

theorem commentCreatePost_inv (blogIds : List Nat) (st : CommentsState)
    (bid : Nat) (parent : Option Nat) (content : String) (cat : Nat)
    (hinv : CommentsInv st) :
    CommentsInv (commentCreatePost blogIds st bid parent content cat).1 := by
  by_cases hb : bid ∈ blogIds
  · cases parent with
    | none =>
      by_cases hc : content.isEmpty
      · simp [commentCreatePost, hb, hc]
        exact hinv
      · simp only [commentCreatePost, hb, not_true_eq_false, if_false, hc,
          if_true]
        simp [hc]
        exact commentsInv_append st bid none cat hinv (by intro p hp; cases hp)
    | some p =>
      cases hfind : st.comments.find? (fun c => c.id == p) with
      | none =>
        simp [commentCreatePost, hb, hfind]
        exact hinv
      | some pc =>
        by_cases hblog : pc.blog = bid
        · by_cases hc : content.isEmpty
          · simp [commentCreatePost, hb, hfind, hblog, hc]
            exact hinv
          · simp [commentCreatePost, hb, hfind, hblog, hc]
            refine commentsInv_append st bid (some p) cat hinv ?_
            intro p' hp'
            obtain rfl : p = p' := by
              injection hp'
            refine ⟨pc, List.mem_of_find?_eq_some hfind, ?_, hblog⟩
            have := List.find?_some hfind
            simpa using this
        · simp [commentCreatePost, hb, hfind, hblog]
          exact hinv
  · simp [commentCreatePost, hb]
    exact hinv

theorem applyCreates_inv (blogIds : List Nat) (ops : List CreateOp) :
    ∀ st : CommentsState, CommentsInv st →
      CommentsInv (applyCreates blogIds ops st) := by
  induction ops with
  | nil => intro st hst; simpa [applyCreates] using hst
  | cons op ops ih =>
    intro st hst
    have h1 : applyCreates blogIds (op :: ops) st =
        applyCreates blogIds ops
          (commentCreatePost blogIds st op.blog op.parent op.content
            op.createdAt).1 := by
      simp [applyCreates]
    rw [h1]
    exact ih _ (commentCreatePost_inv blogIds st op.blog op.parent op.content
      op.createdAt hst)

/-- C10: through the comment-creation endpoint, every stored comment with
a non-null parent points at an already existing comment of the same blog
whose id precedes its own (so no comment is its own parent and the parent
relation is acyclic), and a parent that is missing or belongs to another
blog yields the 400 response with the store unchanged. -/
theorem comment_parent_acyclic (blogIds : List Nat) (ops : List CreateOp) :
    (∀ c ∈ (applyCreates blogIds ops ⟨[], 0⟩).comments, ∀ p,
      c.parent = some p →
        p < c.id ∧ ∃ q ∈ (applyCreates blogIds ops ⟨[], 0⟩).comments,
          q.id = p ∧ q.blog = c.blog) ∧
    (∀ c ∈ (applyCreates blogIds ops ⟨[], 0⟩).comments,
      c.parent ≠ some c.id) ∧
    (∀ st : CommentsState, ∀ bid p : Nat, ∀ content : String, ∀ cat : Nat,
      ∀ pc : CommentRec,
      st.comments.find? (fun c => c.id == p) = some pc → pc.blog ≠ bid →
      bid ∈ blogIds →
      commentCreatePost blogIds st bid (some p) content cat =
        (st, .parentBlogMismatch)) ∧
    (∀ st : CommentsState, ∀ bid p : Nat, ∀ content : String, ∀ cat : Nat,
      bid ∈ blogIds →
      st.comments.find? (fun c => c.id == p) = none →
      commentCreatePost blogIds st bid (some p) content cat =
        (st, .parentNotFound)) := by
  have hinv := applyCreates_inv blogIds ops ⟨[], 0⟩ (by
    constructor
    · intro c hc; cases hc
    · intro c hc; cases hc)
  refine ⟨hinv.2, ?_, ?_, ?_⟩
  · intro c hc hself
    have := (hinv.2 c hc c.id hself).1
    omega
  · intro st bid p content cat pc hfind hne hb
    simp [commentCreatePost, hb, hfind, hne]
  · intro st bid p content cat hb hfind
    simp [commentCreatePost, hb, hfind]

/-- Witness for C10: a reply whose parent lives on blog 5 is refused with
the mismatch error when posted to blog 6, and in a store built by two
creation requests no comment is its own parent. -/
theorem comment_parent_acyclic_witness :
    commentCreatePost [5, 6] ⟨[⟨0, 5, none, 10⟩], 1⟩ 6 (some 0) "x" 11 =
      (⟨[⟨0, 5, none, 10⟩], 1⟩, .parentBlogMismatch) ∧
    (∀ c ∈ (applyCreates [5] [⟨5, none, "hi", 10⟩, ⟨5, some 0, "re", 11⟩]
        ⟨[], 0⟩).comments, c.parent ≠ some c.id) := by
  have h := comment_parent_acyclic [5, 6] []
  have h2 := comment_parent_acyclic [5] [⟨5, none, "hi", 10⟩, ⟨5, some 0, "re", 11⟩]
  exact ⟨h.2.2.1 ⟨[⟨0, 5, none, 10⟩], 1⟩ 6 0 "x" 11 ⟨0, 5, none, 10⟩
    (by decide) (by decide) (by decide), h2.2.1⟩

/-! ## Comment-tree serialization lemmas (C5) -/

theorem countP_lt_of_mem {l : List α} {r : α} (hr : r ∈ l) {p q : α → Bool}
    (himp : ∀ x, p x = true → q x = true) (hpr : p r = false)
    (hqr : q r = true) : l.countP p < l.countP q := by
  induction l with
  | nil => cases hr
  | cons x xs ih =>
    have hle : xs.countP p ≤ xs.countP q :=
      List.countP_mono_left (fun a _ ha => himp a ha)
    rcases List.mem_cons.mp hr with rfl | hx
    · simp only [List.countP_cons, hpr, hqr]
      simp
      omega
    · have h1 := ih hx
      simp only [List.countP_cons]
      by_cases hp : p x = true
      · have hq := himp x hp
        simp [hp, hq]
        omega
      · by_cases hq : q x = true
        · simp [hp, hq]
          omega
        · simp [hp, hq]
          omega

theorem mem_repliesQuery {store : List CommentRec} {cid : Nat}
    {r : CommentRec} (h : r ∈ repliesQuery store cid) :
    r ∈ store ∧ r.parent = some cid := by
  unfold repliesQuery sortByCreated at h
  rw [mem_sortLe] at h
  have h2 := List.mem_filter.mp h
  exact ⟨h2.1, by simpa using h2.2⟩

theorem countGT_lt_of_mem {store : List CommentRec} {r : CommentRec}
    (hr : r ∈ store) {i : Nat} (hi : i < r.id) :
    countGT store r.id < countGT store i := by
  unfold countGT
  refine countP_lt_of_mem hr ?_ ?_ ?_
  · intro x hx
    simp at hx ⊢
    omega
  · simp
  · simp [hi]

theorem serializeAux_fuel_congr (store : List CommentRec)
    (wf : ∀ c ∈ store, ∀ p, c.parent = some p → p < c.id) :
    ∀ n : Nat, ∀ c : CommentRec, countGT store c.id = n →
      ∀ f1 f2 : Nat, n < f1 → n < f2 →
        serializeAux f1 store c = serializeAux f2 store c := by
  intro n
  induction n using Nat.strong_induction_on with
  | _ n ih =>
    intro c hn f1 f2 h1 h2
    obtain ⟨a, rfl⟩ : ∃ a, f1 = a + 1 := ⟨f1 - 1, by omega⟩
    obtain ⟨b, rfl⟩ : ∃ b, f2 = b + 1 := ⟨f2 - 1, by omega⟩
    simp only [serializeAux]
    congr 1
    apply List.map_congr_left
    intro r hr
    obtain ⟨hmem, hpar⟩ := mem_repliesQuery hr
    have hlt : c.id < r.id := wf r hmem c.id hpar
    have hcnt : countGT store r.id < countGT store c.id :=
      countGT_lt_of_mem hmem hlt
    rw [hn] at hcnt
    exact ih (countGT store r.id) hcnt r rfl a b (by omega) (by omega)

theorem serializeComment_replies (store : List CommentRec)
    (wf : ∀ c ∈ store, ∀ p, c.parent = some p → p < c.id) (c : CommentRec) :
    (serializeComment store c).replies =
      (repliesQuery store c.id).map (serializeComment store) := by
  unfold serializeComment
  simp only [serializeAux, SComment.replies]
  apply List.map_congr_left
  intro r hr
  obtain ⟨hmem, hpar⟩ := mem_repliesQuery hr
  have hlt : c.id < r.id := wf r hmem c.id hpar
  have hcnt : countGT store r.id < countGT store c.id :=
    countGT_lt_of_mem hmem hlt
  have hle : countGT store c.id ≤ store.length := List.countP_le_length _
  exact serializeAux_fuel_congr store wf (countGT store r.id) r rfl
    store.length (store.length + 1) (by omega) (by omega)

theorem sortByCreated_sorted (l : List CommentRec) :
    (sortByCreated l).Pairwise (fun x y => x.created_at ≤ y.created_at) := by
  have h0 := sortLe_pairwise
    (fun x y : CommentRec => decide (x.created_at ≤ y.created_at))
    (by intro a b h; simp at h ⊢; omega)
    (by intro a b c h1 h2; simp at h1 h2 ⊢; omega) l
  exact (List.Pairwise.imp (fun h => of_decide_eq_true h)) h0

/-- C5: retrieving a blog serializes exactly its comments with
`parent = null`, ordered by creation time ascending, and recursively every
serialized comment's `replies` list is exactly the serialization of the
comments whose parent is that comment, ordered by creation time ascending
— on any store whose parent ids precede their children's ids, which is
what the creation endpoint guarantees. -/
theorem comment_tree_serialization (store : List CommentRec) (blogId : Nat)
    (wf : ∀ c ∈ store, ∀ p, c.parent = some p → p < c.id) :
    (∃ l : List CommentRec,
      l.Perm (store.filter (fun c => c.blog == blogId && c.parent == none)) ∧
      l.Pairwise (fun x y => x.created_at ≤ y.created_at) ∧
      get_comments store blogId = l.map (serializeComment store)) ∧
    (∀ c : CommentRec, ∃ l : List CommentRec,
      l.Perm (store.filter (fun r => r.parent == some c.id)) ∧
      l.Pairwise (fun x y => x.created_at ≤ y.created_at) ∧
      (serializeComment store c).replies = l.map (serializeComment store)) := by
  constructor
  · exact ⟨sortByCreated
      (store.filter (fun c => c.blog == blogId && c.parent == none)),
      sortLe_perm _ _, sortByCreated_sorted _, rfl⟩
  · intro c
    exact ⟨sortByCreated (store.filter (fun r => r.parent == some c.id)),
      sortLe_perm _ _, sortByCreated_sorted _,
      serializeComment_replies store wf c⟩

/-- Witness for C5: a three-comment store (one root with two replies,
created out of order) satisfying the well-formedness the creation
endpoint guarantees. -/
theorem comment_tree_serialization_witness :
    (∃ l : List CommentRec,
      l.Perm ([⟨1, 5, none, 10⟩, ⟨2, 5, some 1, 12⟩,
        ⟨3, 5, some 1, 11⟩].filter
          (fun c => c.blog == 5 && c.parent == none)) ∧
      l.Pairwise (fun x y => x.created_at ≤ y.created_at) ∧
      get_comments [⟨1, 5, none, 10⟩, ⟨2, 5, some 1, 12⟩,
        ⟨3, 5, some 1, 11⟩] 5 = l.map (serializeComment
          [⟨1, 5, none, 10⟩, ⟨2, 5, some 1, 12⟩, ⟨3, 5, some 1, 11⟩])) ∧
    (∀ c : CommentRec, ∃ l : List CommentRec,
      l.Perm ([⟨1, 5, none, 10⟩, ⟨2, 5, some 1, 12⟩,
        ⟨3, 5, some 1, 11⟩].filter (fun r => r.parent == some c.id)) ∧
      l.Pairwise (fun x y => x.created_at ≤ y.created_at) ∧
      (serializeComment [⟨1, 5, none, 10⟩, ⟨2, 5, some 1, 12⟩,
        ⟨3, 5, some 1, 11⟩] c).replies = l.map (serializeComment
          [⟨1, 5, none, 10⟩, ⟨2, 5, some 1, 12⟩, ⟨3, 5, some 1, 11⟩])) := by
  exact comment_tree_serialization
    [⟨1, 5, none, 10⟩, ⟨2, 5, some 1, 12⟩, ⟨3, 5, some 1, 11⟩] 5 (by decide)

/-! ## Cache-key lemmas (C6) -/

theorem tags_entry_mem (qs : List (String × String)) :
    ("tags", HVal.tup (tagsList qs)) ∈ cacheKeyData qs := by
  unfold cacheKeyData
  rw [mem_sortLe]
  exact List.mem_append.mpr (Or.inr (by simp))

theorem tags_entry_unique (qs : List (String × String)) :
    ∀ v, ("tags", v) ∈ cacheKeyData qs → v = HVal.tup (tagsList qs) := by
  intro v hv
  unfold cacheKeyData at hv
  rw [mem_sortLe] at hv
  rcases List.mem_append.mp hv with h | h
  · obtain ⟨k, hk, hkv⟩ := List.mem_map.mp h
    have hfst : k = "tags" := congrArg Prod.fst hkv
    have h2 := (List.mem_filter.mp (List.mem_dedup.mp hk)).2
    rw [hfst] at h2
    simp at h2
  · simp only [List.mem_singleton, Prod.mk.injEq] at h
    exact h.2

/-- C6 counterexample: two listing requests whose query strings are equal
up to a permutation of the repeatable `tags` parameter — `tags=a&tags=b`
versus `tags=b&tags=a` — produce different cache keys, so they do not
share one cache entry. -/
theorem cache_key_not_permutation_stable :
    ([("tags", "a"), ("tags", "b")] : List (String × String)).Perm
        [("tags", "b"), ("tags", "a")] ∧
    cacheKeyData [("tags", "a"), ("tags", "b")] ≠
      cacheKeyData [("tags", "b"), ("tags", "a")] := by
  constructor
  · decide
  · decide

/-- C6 amended: the cache key embeds the `tags` list in request order, so
two requests share a cache key only when their ordered tags lists
coincide; reordering the repeatable tags parameter changes the key (the
key is stable under everything that preserves the dict and the ordered
tags list, not under permutations of it). -/
theorem cache_key_embeds_tag_order (qs1 qs2 : List (String × String))
    (h : cacheKeyData qs1 = cacheKeyData qs2) :
    tagsList qs1 = tagsList qs2 := by
  have h1 := tags_entry_mem qs1
  rw [h] at h1
  have h2 := tags_entry_unique qs2 _ h1
  injection h2

/-- Witness for C6 amended: two textually different query strings with the
same dict and the same ordered tags list, whose equal keys force equal
tags lists. -/
theorem cache_key_embeds_tag_order_witness :
    tagsList [("a", "1"), ("tags", "x")] =
      tagsList [("a", "0"), ("a", "1"), ("tags", "x")] :=
  cache_key_embeds_tag_order [("a", "1"), ("tags", "x")]
    [("a", "0"), ("a", "1"), ("tags", "x")] (by decide)
